import Mathlib

/-!
Verification of the 3GPP specification downloader (`src/app.py`).

The program resolves short 3GPP document identifiers (`"23.501"`) to ETSI
collection paths, lists the available version directories from a remote
HTML listing, orders and filters them, and builds the final PDF artifact
URL together with a human-friendly file name.

This file shallowly embeds the pure logic of `app.py`:
Python strings are Lean `String`s, Python's non-negative `int` values are
`Nat`, the network/HTML-parsing boundary (`requests.get` plus
BeautifulSoup anchor extraction) is an explicit environment
`String → Except String (List String)` mapping a directory URL to either
an exception message or the list of anchor `href` attributes, and the
Streamlit session state is an explicit record that the run action
transforms.
-/

namespace SpecApp

/-! ### Python string primitives, embedded over `List Char` -/

/-- Numeric value of a decimal digit character. -/
def digitVal (c : Char) : Nat := c.toNat - '0'.toNat

/-- Value of a list of decimal digit characters, most significant first.
This is what Python's `int()` computes on a non-empty all-digit string. -/
def natOfDigits (cs : List Char) : Nat := cs.foldl (fun a c => 10 * a + digitVal c) 0

/-- Python `int(s)` restricted to the inputs the program feeds it: it
succeeds exactly on non-empty all-digit strings (the program validates
identifiers against `^\d+\.\d+$` before parsing, so signs, spaces and
other `int()` extensions are never exercised). -/
def pyInt (s : String) : Option Nat :=
  if s.data ≠ [] ∧ s.data.all Char.isDigit then some (natOfDigits s.data) else none

/-- Python `str.split(sep)` for a one-character separator, over char lists:
`"".split(".") = [""]`, `".a." .split(".") = ["", "a", ""]`. -/
def splitCh (sep : Char) : List Char → List (List Char)
  | [] => [[]]
  | c :: cs =>
    if c = sep then [] :: splitCh sep cs
    else
      match splitCh sep cs with
      | [] => [[c]]
      | y :: ys => (c :: y) :: ys

/-- Python `s.split(sep)` for a one-character separator. -/
def pySplit (sep : Char) (s : String) : List String :=
  (splitCh sep s.data).map (fun cs => String.mk cs)

/-- Python `s.strip()`: remove leading and trailing whitespace. -/
def pyStrip (s : String) : String :=
  String.mk (((s.data.dropWhile Char.isWhitespace).reverse.dropWhile Char.isWhitespace).reverse)

/-- Python `s.strip("/")`: remove leading and trailing `'/'` characters. -/
def stripSlashes (s : String) : String :=
  String.mk (((s.data.dropWhile (· = '/')).reverse.dropWhile (· = '/')).reverse)

/-- Decides whether `ps` is a prefix of `cs`. -/
def isPrefixLC : List Char → List Char → Bool
  | [], _ => true
  | _ :: _, [] => false
  | p :: ps, c :: cs => p = c && isPrefixLC ps cs

/-- Python `s.startswith(p)`. -/
def pyStartswith (s p : String) : Bool := isPrefixLC p.data s.data

/-! ### `ts_to_etsi` (app.py lines 43–50) -/

/-- Python `f"{n:03d}"` for a natural number: decimal rendering zero-padded on
the left to at least three characters. -/
def padZero3 (n : Nat) : String :=
  let s := toString n
  if s.length < 3 then String.mk (List.replicate (3 - s.length) '0') ++ s else s

/-- Embedding of `ts_to_etsi` (app.py lines 43–50):

    parts = ts_number.strip().split(".")
    series = int(parts[0]); num = int(parts[1])
    etsi_num = f"{series + 100}{num:03d}"
    series_base = (int(etsi_num) // 100) * 100
    series_range = f"{series_base}_{series_base + 99}"
    return etsi_num, series_range

`none` models the Python exceptions (`IndexError` when there is no `"."`,
`ValueError` from `int()`) that the caller's `try/except` would catch. -/
def ts_to_etsi (ts_number : String) : Option (String × String) :=
  match pySplit '.' (pyStrip ts_number) with
  | p0 :: p1 :: _ => do
    let series ← pyInt p0
    let num ← pyInt p1
    let etsi_num := toString (series + 100) ++ padZero3 num
    let series_base := (natOfDigits etsi_num.data / 100) * 100
    let series_range := toString series_base ++ "_" ++ toString (series_base + 99)
    some (etsi_num, series_range)
  | _ => none

/-! ### `build_pdf_url` and the friendly name (app.py lines 83–87, 152–154) -/

/-- The version label `ver_dir.split("_")[0]`: the portion of a version directory name before
its first underscore (the whole string when there is none). -/
def verLabel (v : String) : String := (pySplit '_' v).headD v

/-- Python `s.replace(".", "")`: remove every dot. -/
def removeDots (s : String) : String := String.mk (s.data.filter (fun c => c ≠ '.'))

/-- Embedding of `build_pdf_url` (app.py lines 83–87): returns the artifact
URL and the version label. -/
def build_pdf_url (etsi_num series_range ver_dir : String) : String × String :=
  let ver_str := verLabel ver_dir
  let ver_compact := removeDots ver_str
  let filename := "ts_" ++ etsi_num ++ "v" ++ ver_compact ++ "p.pdf"
  ("https://www.etsi.org/deliver/etsi_ts/" ++ series_range ++ "/" ++ etsi_num ++ "/" ++
      ver_dir ++ "/" ++ filename,
    ver_str)

/-- Embedding of the friendly file name construction
(`friendly_name = f"TS {ts} V{ver_str}.pdf"`, app.py line 153). -/
def friendly_name (ts ver_str : String) : String := "TS " ++ ts ++ " V" ++ ver_str ++ ".pdf"

/-! ### `get_versions` (app.py lines 52–81) -/

/-- State of `re.findall(r"\d+", v)` folded into integers: the accumulator
holds the value of the digit run currently being read, if any. -/
def findNumsAux : List Char → Option Nat → List Nat
  | [], none => []
  | [], some n => [n]
  | c :: cs, none =>
    if c.isDigit then findNumsAux cs (some (digitVal c)) else findNumsAux cs none
  | c :: cs, some n =>
    if c.isDigit then findNumsAux cs (some (10 * n + digitVal c)) else n :: findNumsAux cs none

/-- The integer values of the maximal digit runs of a character list:
`tuple(int(n) for n in re.findall(r"\d+", v))`. -/
def findNums (cs : List Char) : List Nat := findNumsAux cs none

/-- The sort key `version_key` (app.py lines 70–71): the tuple of all integers embedded
in a version string. -/
def version_key (v : String) : List Nat := findNums v.data

/-- Does the regex `\d+\.\d+\.\d+_\d+` match at the head of this character
list?  Greedy maximal-munch is exact here because `\d` is disjoint from
the literals `.` and `_`, so no backtracking can help. -/
def matchVerAt (cs : List Char) : Bool :=
  match cs.span Char.isDigit with
  | ([], _) => false
  | (_ :: _, '.' :: r2) =>
    match r2.span Char.isDigit with
    | ([], _) => false
    | (_ :: _, '.' :: r4) =>
      match r4.span Char.isDigit with
      | ([], _) => false
      | (_ :: _, '_' :: r6) =>
        match r6 with
        | c :: _ => c.isDigit
        | [] => false
      | _ => false
    | _ => false
  | _ => false

/-- Python `re.search(r"\d+\.\d+\.\d+_\d+", href)` viewed as a Boolean: the
pattern matches at some position of the string. -/
def searchVer (s : String) : Bool := s.data.tails.any matchVerAt

/-- Candidate extraction from the anchor hrefs (app.py lines 62–65): keep
hrefs where the version pattern occurs, then take the last path segment of
the slash-stripped href. -/
def extractVersions (hrefs : List String) : List String :=
  (hrefs.filter searchVer).map (fun h => (pySplit '/' (stripSlashes h)).getLastD (stripSlashes h))

/-- Strict lexicographic order on integer tuples, exactly Python's `<` on
tuples of ints (a proper prefix is smaller). -/
def lexLt : List Nat → List Nat → Bool
  | [], [] => false
  | [], _ :: _ => true
  | _ :: _, [] => false
  | a :: as, b :: bs => if a < b then true else if a = b then lexLt as bs else false

/-- Comparator used for the descending sort: `a` may precede `b` iff
`version_key a ≥ version_key b` (Python `sorted(..., key=version_key,
reverse=True)`). -/
def vle (a b : String) : Bool := !(lexLt (version_key a) (version_key b))

/-- Python `sorted(set(versions), key=version_key, reverse=True)` (app.py
line 73): deduplicate, then sort descending by numeric tuple.  Python's
`sorted` is a stable sort under the comes-before relation `vle`; we embed
it with a stable structural sort under the same relation, which yields
the same list. -/
def sortVersions (vs : List String) : List String :=
  List.insertionSort (fun a b => vle a b = true) vs.dedup

/-- The directory listing URL (app.py line 53). -/
def dir_url (series_range etsi_num : String) : String :=
  "https://www.etsi.org/deliver/etsi_ts/" ++ series_range ++ "/" ++ etsi_num ++ "/"

/-- Decidable equality of `Except` results, for evaluating concrete
instances of the embedded functions. -/
instance {e a : Type} [DecidableEq e] [DecidableEq a] : DecidableEq (Except e a) :=
  fun x y =>
    match x, y with
    | .error u, .error v =>
      if h : u = v then .isTrue (congrArg Except.error h)
      else .isFalse (fun hc => h (Except.error.inj hc))
    | .ok u, .ok v =>
      if h : u = v then .isTrue (congrArg Except.ok h)
      else .isFalse (fun hc => h (Except.ok.inj hc))
    | .error _, .ok _ => .isFalse (fun hc => Except.noConfusion hc)
    | .ok _, .error _ => .isFalse (fun hc => Except.noConfusion hc)

/-- The network/HTML boundary: for each URL, either the exception message
of a failed `requests.get`/`raise_for_status`, or the `href` attributes of
the anchors BeautifulSoup finds in the returned page. -/
def Env : Type := String → Except String (List String)

/-- Embedding of `get_versions` (app.py lines 52–81).  On success the
result is the sorted (and, when a truthy release filter is given,
filtered) list of version directory names; on failure it is the exact
error string the Python code returns in its second component. -/
def get_versions (env : Env) (etsi_num series_range : String)
    (target_release : Option String) : Except String (List String) :=
  let url := dir_url series_range etsi_num
  match env url with
  | .error e => .error e
  | .ok hrefs =>
    let versions := extractVersions hrefs
    if versions = [] then .error ("버전 목록 없음 (" ++ url ++ ")")
    else
      let sorted := sortVersions versions
      match target_release with
      | none => .ok sorted
      | some f =>
        if f = "" then .ok sorted
        else
          let filtered := sorted.filter (fun v => pyStartswith v (f ++ "."))
          if filtered = [] then .error ("Rel-" ++ f ++ " 버전 없음")
          else .ok filtered

/-! ### Input parsing, batch loop and session state (app.py lines 99–123, 147–154) -/

/-- Python `re.match(r"^\d+\.\d+$", t)` as a Boolean: exactly one dot, a
non-empty digit run on each side. -/
def isValidTs (s : String) : Bool :=
  match splitCh '.' s.data with
  | [a, b] => decide (a ≠ []) && decide (b ≠ []) && a.all Char.isDigit && b.all Char.isDigit
  | _ => false

/-- A separator character of the batch input: comma or newline. -/
def isSepChar (c : Char) : Bool := c = ',' || c = '\n'

/-- Split on single separator characters (predicate form of `splitCh`). -/
def splitChP (p : Char → Bool) : List Char → List (List Char)
  | [] => [[]]
  | c :: cs =>
    if p c then [] :: splitChP p cs
    else
      match splitChP p cs with
      | [] => [[c]]
      | y :: ys => (c :: y) :: ys

/-- Python `re.split(r"[,\n]+", s)`: fields separated by maximal runs of
separator characters.  Relative to the single-character split, interior
empty fields (which arise between adjacent separators) disappear, while
an empty first or last field (separator at the very start or end) is
kept — exactly `re.split` with a `+`-quantified character class. -/
def rePlusSplit (p : Char → Bool) (s : String) : List String :=
  match splitChP p s.data with
  | [] => []
  | [f] => [String.mk f]
  | f :: rest =>
    String.mk f ::
      ((rest.dropLast.filter (fun g => g ≠ [])).map (fun cs => String.mk cs) ++
        [String.mk (rest.getLastD [])])

/-- Lines 100–101: split the raw input on `[,\n]+`, strip each token, keep
those matching `^\d+\.\d+$`. -/
def parse_ts_list (ts_input : String) : List String :=
  ((rePlusSplit isSepChar ts_input).map pyStrip).filter isValidTs

/-- One entry of `st.session_state.results` (app.py lines 112–123). -/
structure ResultItem where
  ts : String
  etsi_num : Option String
  series_range : Option String
  versions : Option (List String)
  all_labels : List String
  error : Option String
deriving DecidableEq

/-- The body of the batch loop for one identifier (app.py lines 108–123).
For a validated identifier `ts_to_etsi` cannot fail; the `none` branch
models the dead `except` arm (whose record would carry `str(e)` — the
placeholder message is never reachable for validated input). -/
def process (env : Env) (target_release : Option String) (ts : String) : ResultItem :=
  match ts_to_etsi ts with
  | some (e, r) =>
    match get_versions env e r target_release with
    | .ok vs =>
      { ts := ts, etsi_num := some e, series_range := some r,
        versions := some vs, all_labels := vs.map verLabel, error := none }
    | .error err =>
      { ts := ts, etsi_num := some e, series_range := some r,
        versions := none, all_labels := [], error := some err }
  | none =>
    { ts := ts, etsi_num := none, series_range := none,
      versions := none, all_labels := [], error := some "exception" }

/-- The batch loop (app.py lines 108–123): one result record per
identifier, in input order. -/
def run_batch (env : Env) (target_release : Option String) (ts_list : List String) :
    List ResultItem :=
  ts_list.map (process env target_release)

/-- The session-scoped state: the result list and the artifact byte cache
(`st.session_state.results`, `st.session_state.pdf_cache`); cache values
are byte sequences. -/
structure SessionState where
  results : List ResultItem
  pdf_cache : List (String × List Nat)
deriving DecidableEq

/-- The `run` action (app.py lines 99–125): with non-blank input and at
least one valid identifier, the state is rebuilt from scratch — results
replaced by the new batch, cache cleared (lines 106–107); otherwise an
error/warning is shown and the state is untouched. -/
def run_action (prev : SessionState) (env : Env) (ts_input : String)
    (target_release : Option String) : SessionState :=
  if pyStrip ts_input ≠ "" then
    let ts_list := parse_ts_list ts_input
    if ts_list = [] then prev
    else { results := run_batch env target_release ts_list, pdf_cache := [] }
  else prev

/-- Version selection in the result card (app.py lines 147–151):
`versions[all_labels.index(selected_label)]`, the version at the index of
the label's first occurrence (`none` models the `ValueError` of a label
that does not occur, impossible for a label chosen from the dropdown). -/
def select_version (item : ResultItem) (selected_label : String) : Option String :=
  (item.versions.getD []).get? (item.all_labels.indexOf selected_label)

/-- Join character-list segments with a separator (inverse view of
`splitCh`, used to state the URL round trip). -/
def joinWith (sep : Char) : List (List Char) → List Char
  | [] => []
  | [x] => x
  | x :: y :: rest => x ++ sep :: joinWith sep (y :: rest)

/-- A concrete demonstration environment: the collection directory of
`23.501` lists one version anchor; every other URL returns a page with no
anchors. -/
def demoEnv : Env := fun u =>
  if u = dir_url "123500_123599" "123501" then .ok ["23.5.0_60/"] else .ok []

/-! ### Helper lemmas: strings and splitting -/

theorem mk_data_eq (s : String) : String.mk s.data = s := by
  cases s
  rfl

theorem data_inj {s t : String} (h : s.data = t.data) : s = t := by
  have h2 := congrArg String.mk h
  rwa [mk_data_eq, mk_data_eq] at h2

theorem dropWhile_eq_self_of {α : Type} (p : α → Bool) (l : List α)
    (h : ∀ c ∈ l, p c = false) : l.dropWhile p = l := by
  cases l with
  | nil => rfl
  | cons c cs => simp [List.dropWhile, h c (by simp)]

theorem pyStrip_eq_self (s : String) (h : ∀ c ∈ s.data, c.isWhitespace = false) :
    pyStrip s = s := by
  unfold pyStrip
  rw [dropWhile_eq_self_of _ _ h, dropWhile_eq_self_of _ _ (by simpa using h),
    List.reverse_reverse, mk_data_eq]

theorem splitCh_ne_nil (sep : Char) (cs : List Char) : splitCh sep cs ≠ [] := by
  cases cs with
  | nil => simp [splitCh]
  | cons c cs =>
    by_cases h : c = sep <;> simp only [splitCh, h, if_true, if_false, reduceIte] <;>
      [skip; cases hs : splitCh sep cs] <;> simp_all

theorem splitCh_of_not_mem (sep : Char) (cs : List Char) (h : sep ∉ cs) :
    splitCh sep cs = [cs] := by
  induction cs with
  | nil => rfl
  | cons c cs ih =>
    have hc : ¬ c = sep := fun hc => h (hc ▸ List.mem_cons_self c cs)
    have ih2 := ih (fun hm => h (List.mem_cons_of_mem c hm))
    simp [splitCh, hc, ih2]

theorem splitCh_append (sep : Char) (xs ys : List Char) (h : sep ∉ xs) :
    splitCh sep (xs ++ sep :: ys) = xs :: splitCh sep ys := by
  induction xs with
  | nil => simp [splitCh]
  | cons x xs ih =>
    have hx : ¬ x = sep := fun hc => h (hc ▸ List.mem_cons_self x xs)
    have ih2 := ih (fun hm => h (List.mem_cons_of_mem x hm))
    simp [splitCh, hx, ih2]

theorem splitCh_joinWith (sep : Char) :
    ∀ L : List (List Char), L ≠ [] → (∀ l ∈ L, sep ∉ l) →
      splitCh sep (joinWith sep L) = L := by
  intro L
  induction L with
  | nil => intro h; exact absurd rfl h
  | cons x L ih =>
    intro _ hnm
    cases L with
    | nil => exact splitCh_of_not_mem sep x (hnm x (by simp))
    | cons y rest =>
      rw [joinWith, splitCh_append sep x _ (hnm x (by simp)),
        ih (by simp) (fun l hl => hnm l (List.mem_cons_of_mem x hl))]

theorem splitCh_headD (sep : Char) (cs : List Char) :
    (splitCh sep cs).headD [] = cs.takeWhile (fun c => decide (c ≠ sep)) := by
  induction cs with
  | nil => rfl
  | cons c cs ih =>
    by_cases hc : c = sep
    · simp [splitCh, hc, List.takeWhile]
    · cases hs : splitCh sep cs with
      | nil => exact absurd hs (splitCh_ne_nil sep cs)
      | cons y ys =>
        rw [hs] at ih
        simp only [List.headD_cons] at ih
        subst ih
        simp [splitCh, hc, hs, List.takeWhile, decide_not]

theorem takeWhile_append_of {α : Type} (p : α → Bool) (xs ys : List α) (a : α)
    (hxs : ∀ c ∈ xs, p c = true) (ha : p a = false) :
    (xs ++ a :: ys).takeWhile p = xs := by
  induction xs with
  | nil => simp [List.takeWhile, ha]
  | cons x xs ih =>
    have hx := hxs x (by simp)
    have ih2 := ih (fun c hm => hxs c (List.mem_cons_of_mem x hm))
    simp [List.takeWhile, hx, ih2]

/-! ### Helper lemmas: `verLabel` -/

theorem verLabel_data (v : String) :
    (verLabel v).data = v.data.takeWhile (fun c => decide (c ≠ '_')) := by
  unfold verLabel pySplit
  cases hs : splitCh '_' v.data with
  | nil => exact absurd hs (splitCh_ne_nil '_' v.data)
  | cons y ys =>
    have h := splitCh_headD '_' v.data
    rw [hs] at h
    simpa using h

theorem not_underscore_mem_verLabel (v : String) : '_' ∉ (verLabel v).data := by
  rw [verLabel_data]
  intro hmem
  have := List.mem_takeWhile_imp hmem
  simp at this

theorem mem_of_mem_verLabel {v : String} {c : Char} (h : c ∈ (verLabel v).data) :
    c ∈ v.data := by
  rw [verLabel_data] at h
  exact (List.takeWhile_sublist _).subset h

theorem verLabel_append (s b : String) (h : '_' ∉ s.data) :
    verLabel (s ++ "_" ++ b) = s := by
  apply data_inj
  rw [verLabel_data]
  have hdata : (s ++ "_" ++ b).data = s.data ++ '_' :: b.data := by
    simp [String.data_append]
  rw [hdata]
  refine takeWhile_append_of _ _ _ _ (fun c hc => ?_) (by simp)
  simp only [decide_eq_true_eq]
  exact fun he => h (he ▸ hc)

/-! ### Helper lemmas: the numeric-tuple order -/

theorem lexLt_irrefl : ∀ x : List Nat, lexLt x x = false := by
  intro x
  induction x with
  | nil => rfl
  | cons a as ih => simp [lexLt, Nat.lt_irrefl, ih]

theorem lexLt_trans : ∀ {x y z : List Nat},
    lexLt x y = true → lexLt y z = true → lexLt x z = true := by
  intro x
  induction x with
  | nil =>
    intro y z h1 h2
    cases y with
    | nil => simp [lexLt] at h1
    | cons b bs =>
      cases z with
      | nil => simp [lexLt] at h2
      | cons c cs => simp [lexLt]
  | cons a as ih =>
    intro y z h1 h2
    cases y with
    | nil => simp [lexLt] at h1
    | cons b bs =>
      cases z with
      | nil => simp [lexLt] at h2
      | cons c cs =>
        simp only [lexLt] at h1 h2 ⊢
        split_ifs at h1 h2 ⊢ <;> first
          | rfl
          | omega
          | exact ih h1 h2

theorem lexLt_trichot : ∀ x y : List Nat, lexLt x y = true ∨ x = y ∨ lexLt y x = true := by
  intro x
  induction x with
  | nil =>
    intro y
    cases y with
    | nil => exact Or.inr (Or.inl rfl)
    | cons b bs => exact Or.inl (by simp [lexLt])
  | cons a as ih =>
    intro y
    cases y with
    | nil => exact Or.inr (Or.inr (by simp [lexLt]))
    | cons b bs =>
      rcases Nat.lt_trichotomy a b with hab | hab | hab
      · exact Or.inl (by simp [lexLt, hab])
      · subst hab
        rcases ih bs with h | h | h
        · exact Or.inl (by simp [lexLt, Nat.lt_irrefl, h])
        · exact Or.inr (Or.inl (by rw [h]))
        · exact Or.inr (Or.inr (by simp [lexLt, Nat.lt_irrefl, h]))
      · exact Or.inr (Or.inr (by simp [lexLt, hab]))

theorem lexLt_asymm {x y : List Nat} (h1 : lexLt x y = true) (h2 : lexLt y x = true) : False := by
  have := lexLt_trans h1 h2
  rw [lexLt_irrefl] at this
  exact Bool.false_ne_true this

theorem vle_eq_true_iff (a b : String) :
    vle a b = true ↔ lexLt (version_key a) (version_key b) = false := by
  simp [vle]

instance : IsTotal String (fun a b => vle a b = true) := by
  constructor
  intro a b
  rw [vle_eq_true_iff, vle_eq_true_iff]
  by_cases h : lexLt (version_key a) (version_key b) = true
  · right
    cases h2 : lexLt (version_key b) (version_key a) with
    | false => rfl
    | true => exact absurd (lexLt_asymm h h2) not_false
  · left
    exact Bool.eq_false_iff.mpr h

instance : IsTrans String (fun a b => vle a b = true) := by
  constructor
  intro a b c hab hbc
  rw [vle_eq_true_iff] at hab hbc ⊢
  cases hac : lexLt (version_key a) (version_key c) with
  | false => rfl
  | true =>
    rcases lexLt_trichot (version_key a) (version_key b) with h | h | h
    · rw [h] at hab; simp at hab
    · rw [h] at hac; rw [hac] at hbc; simp at hbc
    · have := lexLt_trans h hac
      rw [this] at hbc
      simp at hbc

theorem lexLt_append_singleton (K : List Nat) (x y : Nat) :
    lexLt (K ++ [x]) (K ++ [y]) = decide (x < y) := by
  induction K with
  | nil =>
    simp only [List.nil_append]
    by_cases hxy : x < y
    · simp [lexLt, hxy]
    · by_cases hxy2 : x = y
      · subst hxy2; simp [lexLt, hxy]
      · simp [lexLt, hxy, hxy2]
  | cons a K ih => simp [lexLt, Nat.lt_irrefl, ih]

/-! ### Helper lemmas: `sortVersions` -/

theorem mem_sortVersions {s : String} {vs : List String} : s ∈ sortVersions vs ↔ s ∈ vs := by
  unfold sortVersions
  rw [(List.perm_insertionSort _ _).mem_iff, List.mem_dedup]

theorem nodup_sortVersions (vs : List String) : (sortVersions vs).Nodup :=
  (List.perm_insertionSort _ _).symm.nodup (List.nodup_dedup vs)

theorem sorted_sortVersions (vs : List String) :
    (sortVersions vs).Pairwise (fun a b => vle a b = true) :=
  List.sorted_insertionSort _ _

theorem sortVersions_ne_nil {vs : List String} (h : vs ≠ []) : sortVersions vs ≠ [] := by
  intro h0
  have hp := List.perm_insertionSort (fun a b => vle a b = true) vs.dedup
  rw [sortVersions] at h0
  rw [h0] at hp
  exact h ((List.dedup_eq_nil _).mp hp.symm.eq_nil)

/-! ### Helper lemmas: `findNums` and `version_key` -/

theorem findNumsAux_append (sep : Char) (hsep : sep.isDigit = false) (ys : List Char) :
    ∀ (xs : List Char) (acc : Option Nat),
      findNumsAux (xs ++ sep :: ys) acc = findNumsAux xs acc ++ findNumsAux ys none := by
  intro xs
  induction xs with
  | nil => intro acc; cases acc <;> simp [findNumsAux, hsep]
  | cons c cs ih =>
    intro acc
    cases acc <;> by_cases hc : c.isDigit <;> simp [findNumsAux, hc, ih]

theorem findNumsAux_digits : ∀ (cs : List Char), cs.all Char.isDigit = true →
    ∀ n, findNumsAux cs (some n) = [cs.foldl (fun a c => 10 * a + digitVal c) n] := by
  intro cs
  induction cs with
  | nil => intro _ n; simp [findNumsAux]
  | cons c cs ih =>
    intro hall n
    rw [List.all_cons, Bool.and_eq_true] at hall
    simp only [findNumsAux, hall.1, if_true]
    rw [ih hall.2 (10 * n + digitVal c)]
    simp [List.foldl]

theorem findNums_digits (cs : List Char) (hne : cs ≠ []) (hall : cs.all Char.isDigit = true) :
    findNums cs = [natOfDigits cs] := by
  cases cs with
  | nil => exact absurd rfl hne
  | cons c cs =>
    rw [List.all_cons, Bool.and_eq_true] at hall
    rw [findNums, findNumsAux]
    simp only [hall.1, if_true]
    rw [findNumsAux_digits cs hall.2]
    simp [natOfDigits, List.foldl]

theorem version_key_append (s b : String) (hne : b.data ≠ [])
    (hall : b.data.all Char.isDigit = true) :
    version_key (s ++ "_" ++ b) = version_key s ++ [natOfDigits b.data] := by
  have hdata : (s ++ "_" ++ b).data = s.data ++ '_' :: b.data := by
    simp [String.data_append]
  calc version_key (s ++ "_" ++ b) = findNumsAux (s.data ++ '_' :: b.data) none := by
        rw [version_key, findNums, hdata]
    _ = findNumsAux s.data none ++ findNumsAux b.data none :=
        findNumsAux_append '_' (by decide) b.data s.data none
    _ = version_key s ++ [natOfDigits b.data] := by
        have hb : findNumsAux b.data none = [natOfDigits b.data] :=
          findNums_digits b.data hne hall
        rw [hb]
        rfl

/-! ### Helper lemmas: first occurrence (`list.index`) -/

theorem get_ne_of_lt_indexOf {l : List String} {a : String} {j : Nat} (hj : j < l.length)
    (h : j < l.indexOf a) : l.get ⟨j, hj⟩ ≠ a := by
  induction l generalizing j with
  | nil => simp at hj
  | cons b bs ih =>
    by_cases hba : b = a
    · subst hba
      simp [List.indexOf_cons_self] at h
    · cases j with
      | zero => simpa using hba
      | succ j =>
        rw [List.indexOf_cons_ne _ hba] at h
        simpa using ih (by simpa using hj) (Nat.lt_of_succ_lt_succ h)

theorem get_versions_eq (env : Env) (e r : String) (rel : Option String) :
    get_versions env e r rel =
      match env (dir_url r e) with
      | .error m => .error m
      | .ok hrefs =>
        if extractVersions hrefs = [] then .error ("버전 목록 없음 (" ++ dir_url r e ++ ")")
        else
          match rel with
          | none => .ok (sortVersions (extractVersions hrefs))
          | some f =>
            if f = "" then .ok (sortVersions (extractVersions hrefs))
            else
              if (sortVersions (extractVersions hrefs)).filter
                  (fun v => pyStartswith v (f ++ ".")) = [] then
                .error ("Rel-" ++ f ++ " 버전 없음")
              else
                .ok ((sortVersions (extractVersions hrefs)).filter
                  (fun v => pyStartswith v (f ++ "."))) := rfl

theorem get_versions_ok_pairwise {env : Env} {e r : String} {rel : Option String}
    {vs : List String} (hok : get_versions env e r rel = .ok vs) :
    vs.Pairwise (fun a b => vle a b = true) := by
  unfold get_versions at hok
  simp only [] at hok
  split at hok
  · exact absurd hok (by simp)
  · split at hok
    · exact absurd hok (by simp)
    · split at hok
      · simp only [Except.ok.injEq] at hok
        exact hok ▸ sorted_sortVersions _
      · split at hok
        · simp only [Except.ok.injEq] at hok
          exact hok ▸ sorted_sortVersions _
        · split at hok
          · exact absurd hok (by simp)
          · simp only [Except.ok.injEq] at hok
            exact hok ▸ List.Pairwise.sublist (List.filter_sublist _) (sorted_sortVersions _)

theorem process_ts (env : Env) (rel : Option String) (ts : String) :
    (process env rel ts).ts = ts := by
  unfold process
  split
  · split <;> rfl
  · rfl

theorem digit_not_ws {c : Char} (h : c.isDigit = true) : c.isWhitespace = false := by
  cases hw : c.isWhitespace
  · rfl
  · exfalso
    simp [Char.isWhitespace] at hw
    rcases hw with ((h1 | h1) | h1) | h1 <;> subst h1 <;> exact absurd h (by decide)

/-! ### Claim theorems -/

/-- C1 (counterexample): the claim's particular values are wrong: the
code maps `"23.501"` to collectionId `"123501"` (series 23 + 100 = 123)
with range `"123500_123599"`, not to `("23501", "23500_23599")`. -/
theorem c1_counterexample_resolve_23_501 :
    ts_to_etsi "23.501" = some ("123501", "123500_123599") ∧
    ("123501", ("123500_123599" : String)) ≠ ("23501", "23500_23599") := by
  constructor <;> decide

/-- C1 (amended): for digit-string parts `s`, `n`, `ts_to_etsi (s ++ "." ++ n)`
returns `collectionId = str(series + 100)` concatenated with `number`
zero-padded to 3 digits, and `collectionRange = f"{base}_{base+99}"` with
`base = (int(collectionId) // 100) * 100`; in particular
`resolve("23.501") = ("123501", "123500_123599")` and
`resolve("38.331") = ("138331", "138300_138399")`.  (The resolver is a
pure Lean function, so determinism is inherent.) -/
theorem c1_resolve_formula (s n : String)
    (hs1 : s.data ≠ []) (hs2 : s.data.all Char.isDigit = true)
    (hn1 : n.data ≠ []) (hn2 : n.data.all Char.isDigit = true) :
    ts_to_etsi (s ++ "." ++ n) =
      some (toString (natOfDigits s.data + 100) ++ padZero3 (natOfDigits n.data),
        toString
            ((natOfDigits (toString (natOfDigits s.data + 100) ++
                padZero3 (natOfDigits n.data)).data / 100) * 100) ++ "_" ++
          toString
            ((natOfDigits (toString (natOfDigits s.data + 100) ++
                padZero3 (natOfDigits n.data)).data / 100) * 100 + 99)) ∧
    ts_to_etsi "23.501" = some ("123501", "123500_123599") ∧
    ts_to_etsi "38.331" = some ("138331", "138300_138399") := by
  refine ⟨?_, by decide, by decide⟩
  have hds : ∀ c ∈ s.data, c.isDigit = true := List.all_eq_true.mp hs2
  have hdn : ∀ c ∈ n.data, c.isDigit = true := List.all_eq_true.mp hn2
  have hdata : (s ++ "." ++ n).data = s.data ++ '.' :: n.data := by
    simp [String.data_append]
  have hws : ∀ c ∈ (s ++ "." ++ n).data, c.isWhitespace = false := by
    rw [hdata]
    intro c hc
    rcases List.mem_append.mp hc with hc1 | hc2
    · exact digit_not_ws (hds c hc1)
    · rcases List.mem_cons.mp hc2 with hc3 | hc4
      · subst hc3; decide
      · exact digit_not_ws (hdn c hc4)
  have hdot_s : '.' ∉ s.data := fun hm => absurd (hds '.' hm) (by decide)
  have hdot_n : '.' ∉ n.data := fun hm => absurd (hdn '.' hm) (by decide)
  have hstrip : pyStrip (s ++ "." ++ n) = s ++ "." ++ n := pyStrip_eq_self _ hws
  have hsplit : pySplit '.' (s ++ "." ++ n) = [s, n] := by
    unfold pySplit
    rw [hdata, splitCh_append '.' s.data n.data hdot_s, splitCh_of_not_mem '.' n.data hdot_n]
    simp [mk_data_eq]
  have hpi_s : pyInt s = some (natOfDigits s.data) := by simp [pyInt, hs1, hs2]
  have hpi_n : pyInt n = some (natOfDigits n.data) := by simp [pyInt, hn1, hn2]
  rw [ts_to_etsi, hstrip, hsplit]
  simp [hpi_s, hpi_n]

/-- C1 (amended) witness: the formula theorem applied at `s = "23"`,
`n = "501"`. -/
theorem c1_resolve_formula_witness :
    ts_to_etsi ("23" ++ "." ++ "501") = some ("123501", "123500_123599") := by
  have h := (c1_resolve_formula "23" "501" (by decide) (by decide) (by decide) (by decide)).1
  exact h.trans (by decide)

/-- C2: for every list of candidate version strings, the version lister
collapses duplicate strings to one (membership is preserved and the
result has no duplicates) and the result is sorted in descending order by
the tuple of all integers embedded in each entry (adjacent-closure:
pairwise, no later element has a strictly greater key); on
`["2.1.0_1","10.0.0_1","2.10.0_1"]` the order is numeric, not
lexicographic. -/
theorem c2_dedup_sort_desc (vs : List String) :
    (∀ s, s ∈ sortVersions vs ↔ s ∈ vs) ∧
    (sortVersions vs).Nodup ∧
    (sortVersions vs).Pairwise
      (fun a b => lexLt (version_key a) (version_key b) = false) ∧
    sortVersions ["2.1.0_1", "10.0.0_1", "2.10.0_1"] = ["10.0.0_1", "2.10.0_1", "2.1.0_1"] := by
  refine ⟨fun s => mem_sortVersions, nodup_sortVersions vs, ?_, by decide⟩
  exact (sorted_sortVersions vs).imp (fun hab => by rwa [vle_eq_true_iff] at hab)

/-- C3: with a (truthy) release filter `f`, the lister keeps exactly the
already-sorted entries that start with `f` followed by a literal dot
(`List.filter`, hence a sublist: relative order preserved), and fails
with the `Rel-<f>` error exactly when no entry remains; the prefix test
is strict, so filter `"16"` rejects `"160.0.0_1"`. -/
theorem c3_release_filter (env : Env) (e r f : String) (hf : f ≠ "") (vs : List String)
    (hok : get_versions env e r none = .ok vs) :
    (get_versions env e r (some f) =
        if vs.filter (fun v => pyStartswith v (f ++ ".")) = []
        then .error ("Rel-" ++ f ++ " 버전 없음")
        else .ok (vs.filter (fun v => pyStartswith v (f ++ ".")))) ∧
    (vs.filter (fun v => pyStartswith v (f ++ "."))).Sublist vs ∧
    (∀ v, v ∈ vs.filter (fun v => pyStartswith v (f ++ ".")) ↔
        v ∈ vs ∧ pyStartswith v (f ++ ".") = true) ∧
    pyStartswith "160.0.0_1" ("16" ++ ".") = false := by
  refine ⟨?_, List.filter_sublist vs, fun v => by simp [List.mem_filter], by decide⟩
  rw [get_versions_eq] at hok ⊢
  split at hok
  · exact absurd hok (by simp)
  next hrefs henv =>
    split at hok
    · exact absurd hok (by simp)
    next hemp =>
      simp only [Except.ok.injEq] at hok
      subst hok
      simp [hemp, hf]

/-- C3 witness: concrete environment with one `16.x` entry; the filtered
listing succeeds with exactly that entry. -/
theorem c3_release_filter_witness :
    get_versions (fun _ => .ok ["16.0.0_1/"]) "123501" "123500_123599" (some "16") =
      .ok ["16.0.0_1"] := by
  have h := (c3_release_filter (fun _ => .ok ["16.0.0_1/"]) "123501" "123500_123599" "16"
    (by decide) ["16.0.0_1"] rfl).1
  exact h.trans (by decide)

/-- C6: splitting the URL produced by `build_pdf_url` on `/` reproduces
the collection range, collection id and version entry as three
consecutive path segments (positions 5–7), followed by the file name. -/
theorem c6_url_roundtrip (e r v : String)
    (he : '/' ∉ e.data) (hr : '/' ∉ r.data) (hv : '/' ∉ v.data) :
    pySplit '/' (build_pdf_url e r v).1 =
      ["https:", "", "www.etsi.org", "deliver", "etsi_ts", r, e, v,
        "ts_" ++ e ++ "v" ++ removeDots (verLabel v) ++ "p.pdf"] := by
  have hrm : '/' ∉ (removeDots (verLabel v)).data := by
    intro hm
    exact hv (mem_of_mem_verLabel (List.mem_of_mem_filter hm))
  have hfn : '/' ∉ ("ts_" ++ e ++ "v" ++ removeDots (verLabel v) ++ "p.pdf").data := by
    intro hm
    simp only [String.data_append, List.mem_append] at hm
    rcases hm with (((hm | hm) | hm) | hm) | hm
    · exact absurd hm (by decide)
    · exact he hm
    · exact absurd hm (by decide)
    · exact hrm hm
    · exact absurd hm (by decide)
  have hlit : ("https://www.etsi.org/deliver/etsi_ts/" : String) =
      "https:" ++ "/" ++ "/" ++ "www.etsi.org" ++ "/" ++ "deliver" ++ "/" ++ "etsi_ts" ++ "/" := by
    decide
  have hslash : ("/" : String).data = ['/'] := rfl
  have hdata : ((build_pdf_url e r v).1).data =
      joinWith '/' ["https:".data, [], "www.etsi.org".data, "deliver".data, "etsi_ts".data,
        r.data, e.data, v.data,
        ("ts_" ++ e ++ "v" ++ removeDots (verLabel v) ++ "p.pdf").data] := by
    show ("https://www.etsi.org/deliver/etsi_ts/" ++ r ++ "/" ++ e ++ "/" ++ v ++ "/" ++
        ("ts_" ++ e ++ "v" ++ removeDots (verLabel v) ++ "p.pdf")).data = _
    rw [hlit]
    simp [String.data_append, hslash, joinWith]
  show (splitCh '/' ((build_pdf_url e r v).1).data).map (fun cs => String.mk cs) = _
  rw [hdata, splitCh_joinWith '/' _ (by simp) ?_]
  · simp only [List.map_cons, List.map_nil, mk_data_eq]
  · intro l hl
    simp only [List.mem_cons, List.not_mem_nil, or_false] at hl
    rcases hl with rfl | rfl | rfl | rfl | rfl | rfl | rfl | rfl | rfl
    · decide
    · decide
    · decide
    · decide
    · decide
    · exact hr
    · exact he
    · exact hv
    · exact hfn

/-- C6 witness: the round trip at the concrete example inputs. -/
theorem c6_url_roundtrip_witness :
    pySplit '/' (build_pdf_url "23501" "23500_23599" "23.5.0_60").1 =
      ["https:", "", "www.etsi.org", "deliver", "etsi_ts", "23500_23599", "23501",
        "23.5.0_60", "ts_23501v2350p.pdf"] := by
  have h := c6_url_roundtrip "23501" "23500_23599" "23.5.0_60"
    (by decide) (by decide) (by decide)
  exact h.trans (by decide)

/-- C8: the batch loop produces exactly one result record per identifier,
in input order, and the record at index `i` is a function of identifier
`i` alone (`process env rel`), so a failure for one identifier cannot
affect any other record. -/
theorem c8_batch_per_identifier (env : Env) (rel : Option String) (l : List String)
    (_hvalid : ∀ ts ∈ l, isValidTs ts = true) :
    (run_batch env rel l).length = l.length ∧
    (run_batch env rel l).map (fun item => item.ts) = l ∧
    (∀ i (hi : i < l.length),
      (run_batch env rel l).get ⟨i, by simpa [run_batch] using hi⟩ =
        process env rel (l.get ⟨i, hi⟩)) := by
  refine ⟨by simp [run_batch], ?_, ?_⟩
  · simp only [run_batch, List.map_map]
    have : (fun item => ResultItem.ts item) ∘ process env rel = fun ts => ts := by
      funext ts
      exact process_ts env rel ts
    rw [this]
    simp
  · intro i hi
    simp [run_batch]

/-- C8 witness: the claim's batch scenario — `["23.501", "99.999"]` where
only the first has a remote directory: two records, in input order, only
the second carrying the no-versions error. -/
theorem c8_batch_per_identifier_witness :
    (run_batch demoEnv none ["23.501", "99.999"]).length = 2 ∧
    (run_batch demoEnv none ["23.501", "99.999"]).map (fun item => item.ts) =
      ["23.501", "99.999"] ∧
    (run_batch demoEnv none ["23.501", "99.999"]).map (fun item => item.error) =
      [none,
        some "버전 목록 없음 (https://www.etsi.org/deliver/etsi_ts/199900_199999/199999/)"] := by
  have h := c8_batch_per_identifier demoEnv none ["23.501", "99.999"] (by decide)
  exact ⟨h.1, h.2.1, by decide⟩

/-- C9: whenever a batch actually runs (non-blank input, at least one
valid identifier), the session state afterwards consists of exactly the
new batch's records with an empty artifact cache, independently of the
previous state: nothing from an earlier batch survives. -/
theorem c9_session_reset (prev prev2 : SessionState) (env : Env) (ts_input : String)
    (rel : Option String) (h1 : pyStrip ts_input ≠ "") (h2 : parse_ts_list ts_input ≠ []) :
    (run_action prev env ts_input rel).pdf_cache = [] ∧
    (run_action prev env ts_input rel).results = run_batch env rel (parse_ts_list ts_input) ∧
    run_action prev env ts_input rel = run_action prev2 env ts_input rel := by
  simp [run_action, h1, h2]

/-- C9 witness: a stale state with a cached artifact and an old record is
fully discarded when the batch `"23.501"` runs. -/
theorem c9_session_reset_witness :
    (run_action ⟨[⟨"old", none, none, none, [], some "stale"⟩], [("k", [1, 2])]⟩
        demoEnv "23.501" none).pdf_cache = [] ∧
    run_action ⟨[⟨"old", none, none, none, [], some "stale"⟩], [("k", [1, 2])]⟩
        demoEnv "23.501" none =
      run_action ⟨[], []⟩ demoEnv "23.501" none := by
  have h := c9_session_reset ⟨[⟨"old", none, none, none, [], some "stale"⟩], [("k", [1, 2])]⟩
    ⟨[], []⟩ demoEnv "23.501" none (by decide) (by decide)
  exact ⟨h.1, h.2.2⟩

/-- C7: `get_versions` returns an error in exactly three situations — the
directory fetch failed (propagating the failure message), the listing
contains no version-shaped anchors (error naming the directory URL), or a
truthy release filter removes every candidate (error naming the filter) —
and in every other situation it returns a non-empty list of versions. -/
theorem c7_error_cases (env : Env) (e r : String) (rel : Option String) :
    (∀ m, env (dir_url r e) = .error m → get_versions env e r rel = .error m) ∧
    (∀ hrefs, env (dir_url r e) = .ok hrefs → extractVersions hrefs = [] →
        get_versions env e r rel = .error ("버전 목록 없음 (" ++ dir_url r e ++ ")")) ∧
    (∀ hrefs f, env (dir_url r e) = .ok hrefs → extractVersions hrefs ≠ [] →
        rel = some f → f ≠ "" →
        (sortVersions (extractVersions hrefs)).filter
            (fun v => pyStartswith v (f ++ ".")) = [] →
        get_versions env e r rel = .error ("Rel-" ++ f ++ " 버전 없음")) ∧
    (∀ hrefs, env (dir_url r e) = .ok hrefs → extractVersions hrefs ≠ [] →
        (∀ f, rel = some f → f ≠ "" →
          (sortVersions (extractVersions hrefs)).filter
            (fun v => pyStartswith v (f ++ ".")) ≠ []) →
        ∃ vs, get_versions env e r rel = .ok vs ∧ vs ≠ []) := by
  refine ⟨?_, ?_, ?_, ?_⟩
  · intro m henv
    rw [get_versions_eq, henv]
  · intro hrefs henv hemp
    rw [get_versions_eq, henv]
    simp [hemp]
  · intro hrefs f henv hne hrel hf hflt
    subst hrel
    rw [get_versions_eq, henv]
    simp [hne, hf, hflt]
  · intro hrefs henv hne hfall
    rw [get_versions_eq, henv]
    cases rel with
    | none =>
      exact ⟨sortVersions (extractVersions hrefs), by simp [hne], sortVersions_ne_nil hne⟩
    | some f =>
      by_cases hf : f = ""
      · subst hf
        exact ⟨sortVersions (extractVersions hrefs), by simp [hne], sortVersions_ne_nil hne⟩
      · have hflt := hfall f rfl hf
        exact ⟨(sortVersions (extractVersions hrefs)).filter
            (fun v => pyStartswith v (f ++ ".")), by simp [hne, hf, hflt], hflt⟩

/-- C7 witness: an environment whose listing parses to zero candidates
yields exactly the no-versions error naming the directory URL. -/
theorem c7_error_cases_witness :
    get_versions (fun _ => .ok []) "123501" "123500_123599" none =
      .error "버전 목록 없음 (https://www.etsi.org/deliver/etsi_ts/123500_123599/123501/)" := by
  have h := (c7_error_cases (fun _ => .ok []) "123501" "123500_123599" none).2.1 [] rfl rfl
  exact h.trans (by decide)

/-- C4 (counterexample): the claim says the friendly name re-renders each
numeric segment of the version label without leading zeros, so that label
`19.05.0` is displayed as `V19.5.0`.  The code (app.py line 153) uses the
label verbatim: for version directory `19.05.0_61` the friendly name is
`TS 24.501 V19.05.0.pdf`, not `TS 24.501 V19.5.0.pdf`. -/
theorem c4_counterexample_padding_kept :
    friendly_name "24.501" (build_pdf_url "124501" "124500_124599" "19.05.0_61").2 =
      "TS 24.501 V19.05.0.pdf" ∧
    friendly_name "24.501" (build_pdf_url "124501" "124500_124599" "19.05.0_61").2 ≠
      "TS 24.501 V19.5.0.pdf" := by
  constructor <;> decide

/-- C4 (amended): the friendly display name is
`"TS <identifier> V<versionLabel>.pdf"` with the version label rendered
verbatim (no zero-padding is stripped); an unpadded label such as
`19.5.0` therefore displays as `V19.5.0`. -/
theorem c4_friendly_name_verbatim (ts e r v : String) :
    friendly_name ts (build_pdf_url e r v).2 = "TS " ++ ts ++ " V" ++ verLabel v ++ ".pdf" ∧
    friendly_name "24.501" "19.5.0" = "TS 24.501 V19.5.0.pdf" :=
  ⟨rfl, rfl⟩

/-- C5: `build_pdf_url` returns the portion of the version entry before
its first underscore as the version label (`takeWhile` characterisation),
and the URL
`https://<host>/deliver/etsi_ts/{range}/{id}/{entry}/ts_{id}v{compact}p.pdf`
with `compact` the label with all dots removed; concrete instance
included. -/
theorem c5_artifact_url_shape (e r v : String) :
    build_pdf_url e r v =
      ("https://www.etsi.org/deliver/etsi_ts/" ++ r ++ "/" ++ e ++ "/" ++ v ++ "/" ++
          ("ts_" ++ e ++ "v" ++ removeDots (verLabel v) ++ "p.pdf"),
        verLabel v) ∧
    (verLabel v).data = v.data.takeWhile (fun c => decide (c ≠ '_')) ∧
    (removeDots (verLabel v)).data = (verLabel v).data.filter (fun c => decide (c ≠ '.')) ∧
    build_pdf_url "23501" "23500_23599" "23.5.0_60" =
      ("https://www.etsi.org/deliver/etsi_ts/23500_23599/23501/23.5.0_60/ts_23501v2350p.pdf",
        "23.5.0") :=
  ⟨rfl, verLabel_data v, rfl, by decide⟩

/-- C10 (implicit): for a successful result record the label list is
positionally aligned with the version list (`all_labels = versions.map
verLabel`), selecting a label resolves to the version at the index of the
label's first occurrence, and — when every entry carrying the selected
label has the shape `label ++ "_" ++ build` with `build` a digit string —
the selected entry has the greatest build number among them. -/
theorem c10_label_selection (env : Env) (rel : Option String) (ts e r sel : String)
    (vs : List String)
    (he : ts_to_etsi ts = some (e, r))
    (hok : get_versions env e r rel = .ok vs)
    (hsel : sel ∈ vs.map verLabel)
    (hshape : ∀ v ∈ vs, verLabel v = sel →
      ∃ b : String, v = sel ++ "_" ++ b ∧ b.data ≠ [] ∧ b.data.all Char.isDigit = true) :
    (process env rel ts).versions = some vs ∧
    (process env rel ts).all_labels = vs.map verLabel ∧
    ∃ (i : Nat) (hi : i < vs.length) (b0 : String),
      (vs.map verLabel).indexOf sel = i ∧
      select_version (process env rel ts) sel = some (vs.get ⟨i, hi⟩) ∧
      verLabel (vs.get ⟨i, hi⟩) = sel ∧
      (∀ j (hj : j < i), verLabel (vs.get ⟨j, Nat.lt_trans hj hi⟩) ≠ sel) ∧
      vs.get ⟨i, hi⟩ = sel ++ "_" ++ b0 ∧
      (∀ v ∈ vs, ∀ b : String, v = sel ++ "_" ++ b → b.data ≠ [] →
        b.data.all Char.isDigit = true → natOfDigits b.data ≤ natOfDigits b0.data) := by
  have hrec : process env rel ts =
      { ts := ts, etsi_num := some e, series_range := some r,
        versions := some vs, all_labels := vs.map verLabel, error := none } := by
    simp [process, he, hok]
  have hidx : (vs.map verLabel).indexOf sel < (vs.map verLabel).length :=
    List.indexOf_lt_length.mpr hsel
  have hi : (vs.map verLabel).indexOf sel < vs.length := by
    simpa using hidx
  have hget_label : verLabel (vs.get ⟨(vs.map verLabel).indexOf sel, hi⟩) = sel := by
    rw [List.get_eq_getElem, ← List.getElem_map (f := verLabel)]
    exact List.getElem_indexOf hidx
  have hsel_eq : select_version (process env rel ts) sel =
      some (vs.get ⟨(vs.map verLabel).indexOf sel, hi⟩) := by
    rw [hrec]
    unfold select_version
    exact List.get?_eq_get hi
  have hmin : ∀ j (hj : j < (vs.map verLabel).indexOf sel),
      verLabel (vs.get ⟨j, Nat.lt_trans hj hi⟩) ≠ sel := by
    intro j hj
    have hjL : j < (vs.map verLabel).length := Nat.lt_trans hj hidx
    have h2 := get_ne_of_lt_indexOf (l := vs.map verLabel) (a := sel) hjL hj
    simpa [List.get_eq_getElem, List.getElem_map] using h2
  have hmem_sel : vs.get ⟨(vs.map verLabel).indexOf sel, hi⟩ ∈ vs := List.get_mem vs _ hi
  obtain ⟨b0, hb0eq, hb0ne, hb0dig⟩ := hshape _ hmem_sel hget_label
  obtain ⟨w, hw_mem, hw_eq⟩ := List.mem_map.mp hsel
  have hsel_nou : '_' ∉ sel.data := hw_eq ▸ not_underscore_mem_verLabel w
  have hpw : vs.Pairwise (fun a b => vle a b = true) := get_versions_ok_pairwise hok
  refine ⟨by rw [hrec], by rw [hrec], (vs.map verLabel).indexOf sel, hi, b0, rfl,
    hsel_eq, hget_label, hmin, hb0eq, ?_⟩
  intro v hv b hveq hbne hbdig
  have hvlab : verLabel v = sel := by
    rw [hveq]
    exact verLabel_append sel b hsel_nou
  obtain ⟨⟨j, hjlen⟩, hvj⟩ := List.mem_iff_get.mp hv
  rcases Nat.lt_or_ge j ((vs.map verLabel).indexOf sel) with hji | hij
  · exact absurd (hvj ▸ hvlab : verLabel (vs.get ⟨j, hjlen⟩) = sel)
      (by simpa using hmin j hji)
  · rcases Nat.eq_or_lt_of_le hij with heq | hlt
    · have hfin : (⟨j, hjlen⟩ : Fin vs.length) = ⟨(vs.map verLabel).indexOf sel, hi⟩ :=
        Fin.ext heq.symm
      rw [hfin] at hvj
      have h2 : sel ++ "_" ++ b0 = sel ++ "_" ++ b := by rw [← hb0eq, hvj, hveq]
      have h3 := congrArg String.data h2
      simp only [String.data_append, List.append_assoc, List.append_cancel_left_eq] at h3
      have hbb : b0.data = b.data := by simpa using h3
      rw [hbb]
    · have hvle : vle (vs.get ⟨(vs.map verLabel).indexOf sel, hi⟩) (vs.get ⟨j, hjlen⟩) =
          true := List.pairwise_iff_get.mp hpw _ _ (by simpa using hlt)
      rw [hvj, vle_eq_true_iff] at hvle
      have hk1 : version_key (vs.get ⟨(vs.map verLabel).indexOf sel, hi⟩) =
          version_key sel ++ [natOfDigits b0.data] := by
        rw [hb0eq]
        exact version_key_append sel b0 hb0ne hb0dig
      have hk2 : version_key v = version_key sel ++ [natOfDigits b.data] := by
        rw [hveq]
        exact version_key_append sel b hbne hbdig
      rw [hk1, hk2, lexLt_append_singleton] at hvle
      simp only [decide_eq_false_iff_not, Nat.not_lt] at hvle
      exact hvle

/-- C10 witness: with entries `23.5.0_60` and `23.5.0_59` sharing the
label `23.5.0`, selecting that label fetches the `_60` entry. -/
theorem c10_label_selection_witness :
    select_version (process (fun _ => .ok ["23.5.0_60/", "23.5.0_59/"]) none "23.501")
        "23.5.0" = some "23.5.0_60" := by
  have h := c10_label_selection (fun _ => .ok ["23.5.0_60/", "23.5.0_59/"]) none
    "23.501" "123501" "123500_123599" "23.5.0" ["23.5.0_60", "23.5.0_59"]
    (by decide) (by decide) (by decide) ?hsh
  · obtain ⟨-, -, i, hi, b0, hidx, hsel_eq, -⟩ := h
    have hi0 : i = 0 := by
      rw [← hidx]
      decide
    subst hi0
    rw [hsel_eq]
    rfl
  case hsh =>
    intro v hv hl
    simp only [List.mem_cons, List.not_mem_nil, or_false] at hv
    rcases hv with rfl | rfl
    · exact ⟨"60", by decide, by decide, by decide⟩
    · exact ⟨"59", by decide, by decide, by decide⟩

end SpecApp
